import Mathlib

/-!
Verification of the turn-based control loop of `FunctionCallAgent`
(`src/ii_agent/agents/function_call.py`) against its specification.

The loop is embedded shallowly: the external collaborators (model client,
tool executor, cancellation requests, token-budget policy) are oracles in
an environment record, and `run_impl`'s `while` loop becomes a fuel-indexed
recursion on `remaining_turns`.  Parts of the repository that the sources
do not include (`MessageHistory`, `ii_agent.utils.constants`) are modelled
from the spec and marked as such in their doc comments.
-/

namespace IIAgent

/-- Parameters of one tool invocation extracted from an assistant turn
(`ToolCallParameters` from `ii_agent.llm.base`). -/
structure ToolCallParameters where
  tool_call_id : String
  tool_name : String
  tool_input : String
deriving DecidableEq, Repr

/-- One content block of a model response: `TextResult`,
`AnthropicThinkingBlock`, or a tool invocation, as consumed by
`FunctionCallAgent.run_impl`. -/
inductive Block where
  | textResult (text : String)
  | thinkingBlock (thinking : String)
  | toolCall (params : ToolCallParameters)
deriving DecidableEq, Repr

/-- One turn of the conversation ledger (`MessageHistory`): a user prompt,
an assistant response, or a tool-result turn. -/
inductive Turn where
  | userPrompt (text : String)
  | assistantTurn (blocks : List Block)
  | toolResult (tool_call_id : String) (result : String)
deriving DecidableEq, Repr

/-- A realtime event put on the message queue (`RealtimeEvent` together
with its `EventType`). -/
inductive Ev where
  | userMessage (text : String)
  | agentThinking (text : String)
  | agentResponse (text : String)
  | agentResponseInterrupted (text : String)
  | toolCallEvent (tool_call_id tool_name tool_input : String)
  | toolResultEvent (tool_call_id tool_name result : String)
deriving DecidableEq, Repr

/-- The value returned by `run_impl` (`ToolImplOutput`). -/
structure ToolImplOutput where
  tool_output : String
  tool_result_message : String
deriving DecidableEq, Repr

/-- Either the `ToolImplOutput` returned by `run_impl` or a raised
`ValueError` message. -/
inductive Outcome where
  | ok (out : ToolImplOutput)
  | err (msg : String)
deriving DecidableEq, Repr

/-- Outcome of one tool execution: the string result together with the
`should_stop` / `get_final_answer` state of the tool manager right after
the call. -/
structure ToolOutcome where
  result : String
  shouldStop : Bool
  finalAnswer : String
deriving DecidableEq, Repr

/-- The external collaborators of one run: the registered tool names, the
model client (an oracle indexed by the number of model calls made so far),
the tool executor (indexed by the number of tool executions so far), the
cooperative cancellation request (`cancelAt = some c` means `cancel()` has
happened by the time of the `c`-th read of the `interrupted` flag; `none`
means no cancel occurs during the run), and the token-budget policy of
`MessageHistory.truncate` (how many oldest turns to drop). -/
structure Env where
  toolNames : List String
  generate : Nat → List Block
  toolRun : Nat → ToolCallParameters → ToolOutcome
  cancelAt : Option Nat
  dropFn : List Turn → Nat

/-- The mutable state threaded through `run_impl`: the ledger, the
`interrupted` flag, the events put on the message queue, and ghost
observations (the turns appended during this run, the number of model
calls, of flag reads, and of tool executions). -/
structure St where
  history : List Turn
  interrupted : Bool
  events : List Ev
  trace : List Turn
  nGen : Nat
  nIntr : Nat
  nTool : Nat
deriving DecidableEq, Repr

/-- Whether a `cancel()` request has arrived by the `k`-th flag read. -/
def cancelledBy (env : Env) (k : Nat) : Bool :=
  match env.cancelAt with
  | none => false
  | some c => decide (c ≤ k)

/-- One read of `self.interrupted`: `cancel()` may have set the flag at any
point since the previous read, and nothing clears the flag while the loop
runs, so the value read is the previous value or-ed with the cancellation
oracle. -/
def readFlag (env : Env) (s : St) : Bool × St :=
  let v := s.interrupted || cancelledBy env s.nIntr
  (v, { s with interrupted := v, nIntr := s.nIntr + 1 })

/-- Append one turn to the ledger (and to the ghost trace of appends). -/
def appendTurn (s : St) (t : Turn) : St :=
  { s with history := s.history ++ [t], trace := s.trace ++ [t] }

/-- Put one event on the message queue. -/
def emit (s : St) (e : Ev) : St :=
  { s with events := s.events ++ [e] }

/-- Join words with single spaces. -/
def joinWords : List String → String
  | [] => ""
  | [w] => w
  | w :: rest => w ++ " " ++ joinWords rest

/-- Fold a word list into lines of eight words each (the loop at
`run_impl` lines 256-259); the first argument is fuel, instantiated with
the word count. -/
def wrapLines : Nat → List String → String
  | _, [] => ""
  | 0, _ => ""
  | fuel + 1, ws => joinWords (ws.take 8) ++ "\n" ++ wrapLines fuel (ws.drop 8)

/-- The line-folded rendering of a thinking block used for the
agent-thinking event (`run_impl` lines 255-260). -/
def formatThinking (t : String) : String :=
  let ws := (t.split Char.isWhitespace).filter (fun w => w ≠ "")
  "```Thinking:\n" ++ (wrapLines ws.length ws).trim ++ "\n```"

/-- The text carried by the agent-thinking event for one block; tool
invocations yield no thinking event. -/
def blockThinkingText : Block → Option String
  | Block.textResult t => some t
  | Block.thinkingBlock t => some (formatThinking t)
  | Block.toolCall _ => none

/-- The tool invocations contained in a block list. -/
def toolCallsOfBlocks (bs : List Block) : List ToolCallParameters :=
  bs.filterMap fun b =>
    match b with
    | Block.toolCall p => some p
    | _ => none

/-- Scan the reversed ledger: collect tool-result identifiers until the
most recent assistant turn, then keep its invocations without a result. -/
def pendingGo : List Turn → List String → List ToolCallParameters
  | [], _ => []
  | Turn.toolResult tid _ :: rest, seen => pendingGo rest (tid :: seen)
  | Turn.assistantTurn bs :: _, seen =>
      (toolCallsOfBlocks bs).filter fun p => !(seen.contains p.tool_call_id)
  | Turn.userPrompt _ :: rest, seen => pendingGo rest seen

/-- Modelled from the spec: `MessageHistory.get_pending_tool_calls` (the
ledger sources are not included) returns the tool invocations of the most
recent assistant turn that have not yet received a matching tool-result
turn. -/
def get_pending_tool_calls (h : List Turn) : List ToolCallParameters :=
  pendingGo h.reverse []

/-- Modelled from the spec: `MessageHistory.truncate` (the ledger sources
are not included) drops complete oldest turns to fit a token budget; the
number of turns dropped is the abstract policy `env.dropFn`. -/
def truncateHistory (env : Env) (h : List Turn) : List Turn :=
  h.drop (env.dropFn h)

/-- Lexicographic comparison of character lists: Python's string order,
which `sorted(tool_names)` uses. -/
def charListLe : List Char → List Char → Bool
  | [], _ => true
  | _ :: _, [] => false
  | a :: as, b :: bs => if a = b then charListLe as bs else decide (a < b)

/-- Python's string comparison (lexicographic by code point). -/
def strLe (a b : String) : Bool :=
  charListLe a.data b.data

/-- The first equal pair of neighbours in a list. -/
def firstAdjacentDup : List String → Option String
  | a :: b :: rest => if a = b then some a else firstAdjacentDup (b :: rest)
  | _ => none

/-- The duplicated name found by sorting the tool names and comparing
neighbours (`FunctionCallAgent._validate_tool_parameters`, lines 151-153). -/
def duplicate_error (names : List String) : Option String :=
  firstAdjacentDup (names.insertionSort (fun a b => strLe a b = true))

/-- The method `FunctionCallAgent._validate_tool_parameters`: collect the declared
tool names, sort them, raise `ValueError` when two neighbours coincide,
otherwise return the tool parameters. -/
def validate_tool_parameters (names : List String) : Except String (List String) :=
  match duplicate_error names with
  | some n => Except.error ("Tool " ++ n ++ " is duplicated")
  | none => Except.ok names

def TOOL_RESULT_INTERRUPT_MESSAGE : String := "Tool execution interrupted by user."

def AGENT_INTERRUPT_MESSAGE : String := "Agent interrupted by user."

def TOOL_CALL_INTERRUPT_FAKE_MODEL_RSP : String :=
  "Tool execution interrupted by user. You can resume by providing a new instruction."

def AGENT_INTERRUPT_FAKE_MODEL_RSP : String :=
  "Agent interrupted by user. You can resume by providing a new instruction."

/-- Modelled from the spec: the fixed task-complete placeholder text
(`COMPLETE_MESSAGE` from `ii_agent.utils.constants`, whose source is not
included); only that it is a fixed text block matters. -/
def COMPLETE_MESSAGE : String := "Task completed."

def MAX_TURNS_MESSAGE : String := "Agent did not complete after max turns"

def CONTRACT_VIOLATION_MESSAGE : String := "Only one tool call per turn is supported"

/-- The method `FunctionCallAgent.add_tool_call_result`: append the tool-result turn
and put a tool-result event on the queue. -/
def add_tool_call_result (s : St) (call : ToolCallParameters) (result : String) : St :=
  emit (appendTurn s (Turn.toolResult call.tool_call_id result))
    (Ev.toolResultEvent call.tool_call_id call.tool_name result)

/-- The method `FunctionCallAgent.add_fake_assistant_turn`: append a synthetic
assistant turn and put an agent-response event on the queue, marked
interrupted when the `interrupted` flag is set at this point (the method
reads the flag again). -/
def add_fake_assistant_turn (env : Env) (s : St) (text : String) : St :=
  let s1 := appendTurn s (Turn.assistantTurn [Block.textResult text])
  let r := readFlag env s1
  emit r.2 (if r.1 then Ev.agentResponseInterrupted text else Ev.agentResponse text)

/-- Put one agent-thinking event per text or thinking block, in block
order (`run_impl` lines 247-271). -/
def emitThinking (s : St) (blocks : List Block) : St :=
  { s with events := s.events ++ (blocks.filterMap blockThinkingText).map Ev.agentThinking }

/-- The block list actually appended as the assistant turn: when the model
returned no content blocks, the fixed task-complete placeholder is
substituted (`run_impl` lines 238-239). -/
def effectiveResponse (bs : List Block) : List Block :=
  if bs.length = 0 then [Block.textResult COMPLETE_MESSAGE] else bs

/-- The `while remaining_turns > 0` loop of `FunctionCallAgent.run_impl`
(lines 204-333), with the fuel argument playing `remaining_turns`. -/
def runLoop (env : Env) : Nat → St → Outcome × St
  | 0, s =>
      (Outcome.ok ⟨MAX_TURNS_MESSAGE, MAX_TURNS_MESSAGE⟩,
        emit s (Ev.agentResponse MAX_TURNS_MESSAGE))
  | n + 1, s =>
      let s0 := { s with history := truncateHistory env s.history }
      match validate_tool_parameters env.toolNames with
      | Except.error e => (Outcome.err e, s0)
      | Except.ok _ =>
        let r1 := readFlag env s0
        if r1.1 then
          (Outcome.ok ⟨AGENT_INTERRUPT_MESSAGE, AGENT_INTERRUPT_MESSAGE⟩,
            add_fake_assistant_turn env r1.2 AGENT_INTERRUPT_FAKE_MODEL_RSP)
        else
          let response0 := env.generate r1.2.nGen
          let s1 := { r1.2 with nGen := r1.2.nGen + 1 }
          let response := effectiveResponse response0
          let s2 := appendTurn s1 (Turn.assistantTurn response)
          let pending := get_pending_tool_calls s2.history
          let s3 := emitThinking s2 response
          match pending with
          | [] =>
              (Outcome.ok ⟨"", "Task completed"⟩, emit s3 (Ev.agentResponse "Task completed"))
          | [tool_call] =>
              let s4 := emit s3
                (Ev.toolCallEvent tool_call.tool_call_id tool_call.tool_name tool_call.tool_input)
              let r2 := readFlag env s4
              if r2.1 then
                let s5 := add_tool_call_result r2.2 tool_call TOOL_RESULT_INTERRUPT_MESSAGE
                (Outcome.ok ⟨TOOL_RESULT_INTERRUPT_MESSAGE, TOOL_RESULT_INTERRUPT_MESSAGE⟩,
                  add_fake_assistant_turn env s5 TOOL_CALL_INTERRUPT_FAKE_MODEL_RSP)
              else
                let outcome := env.toolRun r2.2.nTool tool_call
                let s5 := { r2.2 with nTool := r2.2.nTool + 1 }
                let s6 := add_tool_call_result s5 tool_call outcome.result
                if outcome.shouldStop then
                  (Outcome.ok ⟨outcome.finalAnswer, "Task completed"⟩,
                    add_fake_assistant_turn env s6 outcome.finalAnswer)
                else
                  runLoop env n s6
          | _ :: _ :: _ =>
              (Outcome.err CONTRACT_VIOLATION_MESSAGE, s3)

/-- The agent state surviving between runs: the ledger and the
`interrupted` flag. -/
structure AgentState where
  history : List Turn
  interrupted : Bool
deriving DecidableEq, Repr

/-- The loop-entry state built by `run_impl` (lines 201-202): the user
prompt is appended to the ledger and `self.interrupted` is unconditionally
set to `False`, whatever its previous value. -/
def runStartState (st : AgentState) (instruction : String) : St :=
  { history := st.history ++ [Turn.userPrompt instruction]
    interrupted := false
    events := []
    trace := [Turn.userPrompt instruction]
    nGen := 0
    nIntr := 0
    nTool := 0 }

/-- The method `FunctionCallAgent.run_impl` (with `files = None`, as passed by the
`run_agent_async` default): append the user prompt, clear the interruption
flag, then run the turn loop. -/
def run_impl (env : Env) (st : AgentState) (instruction : String) (max_turns : Nat) :
    Outcome × St :=
  runLoop env max_turns (runStartState st instruction)

/-- The method `FunctionCallAgent.cancel`: set the interruption flag. -/
def cancel (st : AgentState) : AgentState :=
  { st with interrupted := true }

/-- The method `FunctionCallAgent.run_agent_async`: on a non-resumed run clear the
ledger and the flag, then delegate to `run_impl` (the tool-manager reset
touches only the stop state, which the per-call tool oracle already
covers). -/
def run_agent_async (env : Env) (st : AgentState) (instruction : String)
    (resume : Bool) (max_turns : Nat) : Outcome × St :=
  let st1 := if resume then st else { history := [], interrupted := false }
  run_impl env st1 instruction max_turns

/-! ### The event-sink fan-out (`FunctionCallAgent._process_messages`) -/

/-- Whether the event originated from the client (`EventType.USER_MESSAGE`);
such events are persisted but not echoed back over the websocket. -/
def isUserMessage : Ev → Bool
  | Ev.userMessage _ => true
  | _ => false

/-- State of the event consumer: whether the websocket reference is still
set (`self.websocket is not None`), the events saved to the database, and
the events successfully sent over the websocket. -/
structure SinkState where
  wsConnected : Bool
  persisted : List Ev
  forwarded : List Ev
deriving DecidableEq, Repr

/-- One iteration of `_process_messages` (lines 110-135) on one queue
message: save it to the database when a session exists, then — when it is
not a client event and the websocket reference is set — try to send it;
`sendOk = false` means `send_json` raised, in which case the exception is
caught, logged, and the websocket reference is set to `None`. -/
def process_one (hasSession : Bool) (sendOk : Bool) (s : SinkState) (m : Ev) : SinkState :=
  let s1 := if hasSession then { s with persisted := s.persisted ++ [m] } else s
  if !isUserMessage m && s1.wsConnected then
    if sendOk then { s1 with forwarded := s1.forwarded ++ [m] }
    else { s1 with wsConnected := false }
  else s1

/-- The consumer loop of `_process_messages` run over a finite queue
prefix; `sendOk` is indexed by message position so a send failure can be
placed at any event.  The loop body catches every exception per message,
so the function is total: no exception escapes to the run loop. -/
def process_messages (hasSession : Bool) (sendOk : Nat → Bool) :
    List Ev → Nat → SinkState → SinkState
  | [], _, s => s
  | m :: rest, i, s =>
      process_messages hasSession sendOk rest (i + 1) (process_one hasSession (sendOk i) s m)

/-! ### Counting tool invocations and tool results -/

/-- The identifiers of the tool invocations in a block list. -/
def assistIds (bs : List Block) : List String :=
  (toolCallsOfBlocks bs).map fun p => p.tool_call_id

/-- The tool-invocation identifiers contributed by one turn. -/
def turnCallIds : Turn → List String
  | Turn.assistantTurn bs => assistIds bs
  | _ => []

/-- All tool-invocation identifiers in a turn list, in order. -/
def callIds (ts : List Turn) : List String :=
  (ts.map turnCallIds).flatten

/-- Whether a turn is a tool-result turn. -/
def isToolResultTurn : Turn → Bool
  | Turn.toolResult _ _ => true
  | _ => false

/-- The number of tool-result turns in a turn list. -/
def numToolResults (ts : List Turn) : Nat :=
  (ts.filter isToolResultTurn).length

/-- Scans a turn list accumulating the tool-invocation identifiers seen in
assistant turns; every tool-result turn must carry an identifier already
seen (i.e. issued by a prior assistant turn). -/
def resultsMatchedAux (seen : List String) : List Turn → Bool
  | [] => true
  | Turn.assistantTurn bs :: rest => resultsMatchedAux (seen ++ assistIds bs) rest
  | Turn.toolResult tid _ :: rest => seen.contains tid && resultsMatchedAux seen rest
  | Turn.userPrompt _ :: rest => resultsMatchedAux seen rest

/-- The invariant of the appended-turn trace: no more tool-result turns
than tool-invocation blocks, and every tool result matches an invocation
of a prior assistant turn. -/
def traceInv (ts : List Turn) : Prop :=
  numToolResults ts ≤ (callIds ts).length ∧ resultsMatchedAux [] ts = true

/-! ### Concrete witness environments -/

/-- A concrete environment whose model always answers with two tool
invocations in one turn. -/
def envMulti : Env :=
  { toolNames := ["a"]
    generate := fun _ => [Block.toolCall ⟨"1", "t", "x"⟩, Block.toolCall ⟨"2", "t", "y"⟩]
    toolRun := fun _ _ => ⟨"", false, ""⟩
    cancelAt := none
    dropFn := fun _ => 0 }

/-- The loop state at the start of a fresh run on the prompt `go`. -/
def s0 : St := runStartState ⟨[], false⟩ "go"

/-- A concrete environment whose model always answers with one tool
invocation and where `cancel()` arrives between the two checkpoints of the
first turn. -/
def envCancelSecond : Env :=
  { toolNames := ["a"]
    generate := fun _ => [Block.toolCall ⟨"1", "t", "x"⟩]
    toolRun := fun _ _ => ⟨"res", false, ""⟩
    cancelAt := some 1
    dropFn := fun _ => 0 }

/-- A concrete environment whose model returns no content blocks. -/
def envEmpty : Env :=
  { toolNames := ["a"]
    generate := fun _ => []
    toolRun := fun _ _ => ⟨"", false, ""⟩
    cancelAt := none
    dropFn := fun _ => 0 }

/-- A concrete environment whose model calls one tool every turn and
whose tools never signal completion. -/
def envLoopForever : Env :=
  { toolNames := ["a"]
    generate := fun _ => [Block.toolCall ⟨"1", "t", "x"⟩]
    toolRun := fun _ _ => ⟨"res", false, ""⟩
    cancelAt := none
    dropFn := fun _ => 0 }

/-- A concrete environment registering two tools under the same name. -/
def envDup : Env :=
  { toolNames := ["a", "a"]
    generate := fun _ => []
    toolRun := fun _ _ => ⟨"", false, ""⟩
    cancelAt := none
    dropFn := fun _ => 0 }

/-- A fresh sink state with the websocket reference still set. -/
def sink0 : SinkState := ⟨true, [], []⟩

/-- A send oracle whose websocket send succeeds only on the first event. -/
def sendOkFirst : Nat → Bool := fun k => decide (k = 0)

/-! ### Helper lemmas -/

theorem charListLe_total : ∀ as bs : List Char, charListLe as bs = true ∨ charListLe bs as = true
  | [], _ => Or.inl rfl
  | _ :: _, [] => Or.inr rfl
  | a :: as, b :: bs => by
    by_cases hab : a = b
    · subst hab
      simpa [charListLe] using charListLe_total as bs
    · rcases lt_or_gt_of_ne hab with h | h
      · exact Or.inl (by simp [charListLe, hab, h])
      · exact Or.inr (by simp [charListLe, Ne.symm hab, h])

theorem charListLe_trans : ∀ as bs cs : List Char,
    charListLe as bs = true → charListLe bs cs = true → charListLe as cs = true
  | [], _, _, _, _ => rfl
  | _ :: _, [], _, h1, _ => by simp [charListLe] at h1
  | _ :: _, _ :: _, [], _, h2 => by simp [charListLe] at h2
  | a :: as, b :: bs, c :: cs, h1, h2 => by
    by_cases hab : a = b
    · subst hab
      by_cases hac : a = c
      · subst hac
        simp only [charListLe, if_pos rfl] at h1 h2 ⊢
        exact charListLe_trans as bs cs h1 h2
      · simpa [charListLe, hac] using by simpa [charListLe, hac] using h2
    · have hlt1 : a < b := by
        simpa [charListLe, hab] using h1
      by_cases hbc : b = c
      · subst hbc
        simp [charListLe, hab, hlt1]
      · have hlt2 : b < c := by
          simpa [charListLe, hbc] using h2
        have hac : a < c := lt_trans hlt1 hlt2
        simp [charListLe, ne_of_lt hac, hac]

theorem charListLe_antisymm : ∀ as bs : List Char,
    charListLe as bs = true → charListLe bs as = true → as = bs
  | [], [], _, _ => rfl
  | [], _ :: _, _, h2 => by simp [charListLe] at h2
  | _ :: _, [], h1, _ => by simp [charListLe] at h1
  | a :: as, b :: bs, h1, h2 => by
    by_cases hab : a = b
    · subst hab
      simp only [charListLe, if_pos rfl] at h1 h2
      exact congrArg _ (charListLe_antisymm as bs h1 h2)
    · have hlt1 : a < b := by simpa [charListLe, hab] using h1
      have hlt2 : b < a := by simpa [charListLe, Ne.symm hab] using h2
      exact absurd hlt2 (lt_asymm hlt1)

theorem strLe_antisymm (a b : String) (h1 : strLe a b = true) (h2 : strLe b a = true) : a = b := by
  cases a with
  | mk da =>
    cases b with
    | mk db =>
      exact congrArg String.mk (charListLe_antisymm da db h1 h2)

instance : IsTotal String (fun a b => strLe a b = true) :=
  ⟨fun a b => charListLe_total a.data b.data⟩

instance : IsTrans String (fun a b => strLe a b = true) :=
  ⟨fun a b c => charListLe_trans a.data b.data c.data⟩

theorem sorted_firstAdjacentDup_none_iff :
    ∀ l : List String, l.Sorted (fun a b => strLe a b = true) →
      (firstAdjacentDup l = none ↔ l.Nodup)
  | [], _ => by simp [firstAdjacentDup]
  | [a], _ => by simp [firstAdjacentDup]
  | a :: b :: rest, h => by
    rw [List.sorted_cons] at h
    obtain ⟨ha, hs⟩ := h
    by_cases hab : a = b
    · constructor
      · intro hnone
        simp [firstAdjacentDup, hab] at hnone
      · intro hnd
        exact absurd (hab ▸ List.mem_cons_self b rest) (List.nodup_cons.mp hnd).1
    · have step : firstAdjacentDup (a :: b :: rest) = firstAdjacentDup (b :: rest) := by
        simp [firstAdjacentDup, hab]
      rw [step, sorted_firstAdjacentDup_none_iff (b :: rest) hs]
      constructor
      · intro hnd
        refine List.nodup_cons.mpr ⟨?_, hnd⟩
        intro hmem
        rcases List.mem_cons.mp hmem with h1 | h1
        · exact hab h1
        · have hba : strLe b a = true := (List.sorted_cons.mp hs).1 a h1
          have hab2 : strLe a b = true := ha b (List.mem_cons_self b rest)
          exact hab (strLe_antisymm a b hab2 hba)
      · intro hnd
        exact (List.nodup_cons.mp hnd).2

/-- The check `_validate_tool_parameters` finds a duplicate exactly when the name
list has one: the sorted-neighbour scan is a complete duplicate check. -/
theorem duplicate_error_eq_none_iff (names : List String) :
    duplicate_error names = none ↔ names.Nodup := by
  unfold duplicate_error
  rw [sorted_firstAdjacentDup_none_iff _
    (List.sorted_insertionSort (fun a b => strLe a b = true) names)]
  exact (List.perm_insertionSort (fun a b => strLe a b = true) names).nodup_iff

theorem pendingGo_assistant (rest : List Turn) (bs : List Block) :
    pendingGo (Turn.assistantTurn bs :: rest) [] = toolCallsOfBlocks bs := by
  simp [pendingGo]

theorem get_pending_append_assistant (h : List Turn) (bs : List Block) :
    get_pending_tool_calls (h ++ [Turn.assistantTurn bs]) = toolCallsOfBlocks bs := by
  unfold get_pending_tool_calls
  rw [List.reverse_append]
  simpa using pendingGo_assistant h.reverse bs

theorem effectiveResponse_of_ne_nil {bs : List Block} (h : bs ≠ []) :
    effectiveResponse bs = bs := by
  unfold effectiveResponse
  rw [if_neg (by simpa [List.length_eq_zero] using h)]

theorem effectiveResponse_ne_nil (bs : List Block) : effectiveResponse bs ≠ [] := by
  unfold effectiveResponse
  split
  · simp
  · next h =>
      simpa [List.length_eq_zero] using h

/-! ### Claim theorems -/

/-- C1: if the model response yields more than one pending tool call in a
single assistant turn, the loop raises the contract-violation error; at
that point the assistant turn has already been appended to the history,
and no tool-result turn is appended for any of the calls (the only turn
appended in this iteration is the assistant turn itself). -/
theorem multi_tool_call_raises_contract_violation
    (env : Env) (n : Nat) (s : St) (p q : ToolCallParameters) (rest : List ToolCallParameters)
    (hdup : duplicate_error env.toolNames = none)
    (hflag : s.interrupted = false)
    (hc : cancelledBy env s.nIntr = false)
    (hresp : toolCallsOfBlocks (env.generate s.nGen) = p :: q :: rest) :
    (runLoop env (n + 1) s).1 = Outcome.err CONTRACT_VIOLATION_MESSAGE
    ∧ (runLoop env (n + 1) s).2.trace = s.trace ++ [Turn.assistantTurn (env.generate s.nGen)]
    ∧ (runLoop env (n + 1) s).2.history.getLast? = some (Turn.assistantTurn (env.generate s.nGen)) := by
  have hne : env.generate s.nGen ≠ [] := by
    intro hnil
    rw [hnil] at hresp
    simp [toolCallsOfBlocks] at hresp
  simp only [runLoop, validate_tool_parameters, hdup, readFlag, truncateHistory, appendTurn,
    emitThinking, hflag, hc, Bool.false_or, if_neg Bool.false_ne_true]
  rw [effectiveResponse_of_ne_nil hne, get_pending_append_assistant, hresp]
  simp [List.getLast?_concat]



/-- Witness for C1 at a concrete two-tool-call response. -/
theorem multi_tool_call_raises_contract_violation_witness :
    (runLoop envMulti 1 s0).1 = Outcome.err CONTRACT_VIOLATION_MESSAGE
    ∧ (runLoop envMulti 1 s0).2.trace = s0.trace ++ [Turn.assistantTurn (envMulti.generate s0.nGen)]
    ∧ (runLoop envMulti 1 s0).2.history.getLast? = some (Turn.assistantTurn (envMulti.generate s0.nGen)) :=
  multi_tool_call_raises_contract_violation envMulti 0 s0 ⟨"1", "t", "x"⟩ ⟨"2", "t", "y"⟩ []
    (by decide) rfl rfl rfl

/-- C3: when the interruption flag is read as set at the second checkpoint
(after the pending tool call is extracted, before executing it), the loop
appends a synthetic tool-result turn marking the call interrupted, then a
synthetic assistant turn, emits an agent-response-interrupted event, and
returns the interruption message; the tool itself is never invoked (the
tool-execution count is unchanged). -/
theorem second_checkpoint_interrupts_without_running_tool
    (env : Env) (n : Nat) (s : St) (p : ToolCallParameters)
    (hdup : duplicate_error env.toolNames = none)
    (hflag : s.interrupted = false)
    (h1 : cancelledBy env s.nIntr = false)
    (h2 : cancelledBy env (s.nIntr + 1) = true)
    (hresp : toolCallsOfBlocks (env.generate s.nGen) = [p]) :
    (runLoop env (n + 1) s).1
      = Outcome.ok ⟨TOOL_RESULT_INTERRUPT_MESSAGE, TOOL_RESULT_INTERRUPT_MESSAGE⟩
    ∧ (runLoop env (n + 1) s).2.trace
      = s.trace ++ [Turn.assistantTurn (env.generate s.nGen),
          Turn.toolResult p.tool_call_id TOOL_RESULT_INTERRUPT_MESSAGE,
          Turn.assistantTurn [Block.textResult TOOL_CALL_INTERRUPT_FAKE_MODEL_RSP]]
    ∧ Ev.agentResponseInterrupted TOOL_CALL_INTERRUPT_FAKE_MODEL_RSP
        ∈ (runLoop env (n + 1) s).2.events
    ∧ (runLoop env (n + 1) s).2.nTool = s.nTool := by
  have hne : env.generate s.nGen ≠ [] := by
    intro hnil
    rw [hnil] at hresp
    simp [toolCallsOfBlocks] at hresp
  simp only [runLoop, validate_tool_parameters, hdup, readFlag, truncateHistory, appendTurn,
    emitThinking, emit, add_tool_call_result, add_fake_assistant_turn,
    hflag, h1, Bool.false_or, if_neg Bool.false_ne_true]
  rw [effectiveResponse_of_ne_nil hne, get_pending_append_assistant, hresp]
  simp [h2, readFlag, appendTurn, emit]


/-- Witness for C3 at a concrete interrupted run. -/
theorem second_checkpoint_interrupts_without_running_tool_witness :
    (runLoop envCancelSecond 1 s0).1
      = Outcome.ok ⟨TOOL_RESULT_INTERRUPT_MESSAGE, TOOL_RESULT_INTERRUPT_MESSAGE⟩
    ∧ (runLoop envCancelSecond 1 s0).2.trace
      = s0.trace ++ [Turn.assistantTurn (envCancelSecond.generate s0.nGen),
          Turn.toolResult (ToolCallParameters.mk "1" "t" "x").tool_call_id TOOL_RESULT_INTERRUPT_MESSAGE,
          Turn.assistantTurn [Block.textResult TOOL_CALL_INTERRUPT_FAKE_MODEL_RSP]]
    ∧ Ev.agentResponseInterrupted TOOL_CALL_INTERRUPT_FAKE_MODEL_RSP
        ∈ (runLoop envCancelSecond 1 s0).2.events
    ∧ (runLoop envCancelSecond 1 s0).2.nTool = s0.nTool :=
  second_checkpoint_interrupts_without_running_tool envCancelSecond 0 s0 ⟨"1", "t", "x"⟩
    (by decide) rfl rfl rfl rfl

/-- C7: a normally terminating run returns one of the four documented
results — a tool-signaled final answer, the fixed completion output, one
of the two fixed interruption messages, or the fixed max-turns message —
and the only errors raised are the duplicate-tool-name configuration error
and the one-tool-call-per-turn contract violation. -/
theorem run_result_is_one_of_four (env : Env) (n : Nat) (s : St) :
    (∃ out, (runLoop env n s).1 = Outcome.ok out ∧
      (out = ⟨"", "Task completed"⟩
        ∨ (∃ k p, out = ⟨(env.toolRun k p).finalAnswer, "Task completed"⟩)
        ∨ out = ⟨AGENT_INTERRUPT_MESSAGE, AGENT_INTERRUPT_MESSAGE⟩
        ∨ out = ⟨TOOL_RESULT_INTERRUPT_MESSAGE, TOOL_RESULT_INTERRUPT_MESSAGE⟩
        ∨ out = ⟨MAX_TURNS_MESSAGE, MAX_TURNS_MESSAGE⟩))
    ∨ (∃ m, (runLoop env n s).1 = Outcome.err m ∧
        (m = CONTRACT_VIOLATION_MESSAGE ∨ ∃ nm, m = "Tool " ++ nm ++ " is duplicated")) := by
  induction n generalizing s with
  | zero =>
      exact Or.inl ⟨⟨MAX_TURNS_MESSAGE, MAX_TURNS_MESSAGE⟩, rfl,
        Or.inr (Or.inr (Or.inr (Or.inr rfl)))⟩
  | succ n ih =>
      simp only [runLoop]
      split
      · next e heq =>
          refine Or.inr ⟨e, rfl, Or.inr ?_⟩
          unfold validate_tool_parameters at heq
          split at heq
          · next nm hdup =>
              exact ⟨nm, (Except.error.injEq _ _).mp heq.symm⟩
          · exact absurd heq (by simp)
      · split
        · exact Or.inl ⟨⟨AGENT_INTERRUPT_MESSAGE, AGENT_INTERRUPT_MESSAGE⟩, rfl,
            Or.inr (Or.inr (Or.inl rfl))⟩
        · split
          · exact Or.inl ⟨⟨"", "Task completed"⟩, rfl, Or.inl rfl⟩
          · split
            · exact Or.inl ⟨⟨TOOL_RESULT_INTERRUPT_MESSAGE, TOOL_RESULT_INTERRUPT_MESSAGE⟩, rfl,
                Or.inr (Or.inr (Or.inr (Or.inl rfl)))⟩
            · split
              · exact Or.inl ⟨_, rfl, Or.inr (Or.inl ⟨_, _, rfl⟩)⟩
              · exact ih _
          · exact Or.inr ⟨CONTRACT_VIOLATION_MESSAGE, rfl, Or.inl rfl⟩

/-- Every assistant turn the loop appends carries at least one block:
either the model response (substituted when empty) or a one-block
synthetic turn. -/
theorem runLoop_assistant_turns_nonempty (env : Env) :
    ∀ (n : Nat) (s : St) (bs : List Block),
      Turn.assistantTurn bs ∈ (runLoop env n s).2.trace →
      Turn.assistantTurn bs ∈ s.trace ∨ bs ≠ [] := by
  intro n
  induction n with
  | zero =>
      intro s bs h
      exact Or.inl (by simpa [runLoop, emit] using h)
  | succ n ih =>
      intro s bs
      simp only [runLoop]
      split
      · intro h
        exact Or.inl (by simpa using h)
      · split
        · intro h
          simp [add_fake_assistant_turn, readFlag, emit, appendTurn] at h
          rcases h with h1 | h1
          · exact Or.inl h1
          · subst h1
            simp
        · split
          · intro h
            simp [emit, emitThinking, appendTurn, readFlag] at h
            rcases h with h1 | h1
            · exact Or.inl h1
            · subst h1
              exact Or.inr (effectiveResponse_ne_nil _)
          · split
            · intro h
              simp [add_fake_assistant_turn, add_tool_call_result, readFlag, emit,
                appendTurn, emitThinking] at h
              rcases h with h1 | h1 | h1
              · exact Or.inl h1
              · subst h1
                exact Or.inr (effectiveResponse_ne_nil _)
              · subst h1
                simp
            · split
              · intro h
                simp [add_fake_assistant_turn, add_tool_call_result, readFlag, emit,
                  appendTurn, emitThinking] at h
                rcases h with h1 | h1 | h1
                · exact Or.inl h1
                · subst h1
                  exact Or.inr (effectiveResponse_ne_nil _)
                · subst h1
                  simp
              · intro h
                rcases ih _ bs h with h1 | h1
                · simp [add_tool_call_result, readFlag, emit, appendTurn,
                    emitThinking] at h1
                  rcases h1 with h2 | h2
                  · exact Or.inl h2
                  · subst h2
                    exact Or.inr (effectiveResponse_ne_nil _)
                · exact Or.inr h1
          · intro h
            simp [emitThinking, appendTurn, readFlag] at h
            rcases h with h1 | h1
            · exact Or.inl h1
            · subst h1
              exact Or.inr (effectiveResponse_ne_nil _)

/-- C6: when the model client returns zero content blocks, the loop
substitutes the fixed task-complete placeholder text block before
appending the assistant turn, that turn yields zero pending tool calls,
and the run terminates as completed; moreover no assistant turn the loop
ever appends is fully empty. -/
theorem empty_response_substitutes_placeholder
    (env : Env) (n : Nat) (s : St)
    (hdup : duplicate_error env.toolNames = none)
    (hflag : s.interrupted = false)
    (hc : cancelledBy env s.nIntr = false)
    (hresp : env.generate s.nGen = []) :
    (runLoop env (n + 1) s).1 = Outcome.ok ⟨"", "Task completed"⟩
    ∧ (runLoop env (n + 1) s).2.trace
      = s.trace ++ [Turn.assistantTurn [Block.textResult COMPLETE_MESSAGE]]
    ∧ Ev.agentResponse "Task completed" ∈ (runLoop env (n + 1) s).2.events
    ∧ (∀ (m : Nat) (t : St) (bs : List Block),
        Turn.assistantTurn bs ∈ (runLoop env m t).2.trace →
        Turn.assistantTurn bs ∈ t.trace ∨ bs ≠ []) := by
  refine ⟨?_, ?_, ?_, runLoop_assistant_turns_nonempty env⟩ <;>
  · simp only [runLoop, validate_tool_parameters, hdup, readFlag, truncateHistory, appendTurn,
      emitThinking, emit, hflag, hc, Bool.false_or, if_neg Bool.false_ne_true]
    rw [hresp]
    have heff : effectiveResponse [] = [Block.textResult COMPLETE_MESSAGE] := rfl
    rw [heff, get_pending_append_assistant]
    simp [toolCallsOfBlocks]


/-- Witness for C6 at a concrete empty model response. -/
theorem empty_response_substitutes_placeholder_witness :
    (runLoop envEmpty 1 s0).1 = Outcome.ok ⟨"", "Task completed"⟩
    ∧ (runLoop envEmpty 1 s0).2.trace
      = s0.trace ++ [Turn.assistantTurn [Block.textResult COMPLETE_MESSAGE]]
    ∧ Ev.agentResponse "Task completed" ∈ (runLoop envEmpty 1 s0).2.events
    ∧ (∀ (m : Nat) (t : St) (bs : List Block),
        Turn.assistantTurn bs ∈ (runLoop envEmpty m t).2.trace →
        Turn.assistantTurn bs ∈ t.trace ∨ bs ≠ []) :=
  empty_response_substitutes_placeholder envEmpty 0 s0 (by decide) rfl rfl rfl

theorem cancelledBy_none {env : Env} (h : env.cancelAt = none) (k : Nat) :
    cancelledBy env k = false := by
  simp [cancelledBy, h]

/-- C2: a run entering the loop with a budget of `n` turns performs at
most `n` model calls; and when neither completion nor a stop signal nor an
interruption nor an error occurs within those turns, the loop makes
exactly `n` model calls, terminates with the fixed max-turns message, and
emits that message as an agent-response event. -/
theorem max_turns_bounds_model_calls (env : Env) (n : Nat) (s : St) :
    (runLoop env n s).2.nGen ≤ s.nGen + n
    ∧ (env.cancelAt = none → s.interrupted = false →
        duplicate_error env.toolNames = none →
        (∀ k, ∃ p, toolCallsOfBlocks (env.generate k) = [p]) →
        (∀ k c, (env.toolRun k c).shouldStop = false) →
        (runLoop env n s).1 = Outcome.ok ⟨MAX_TURNS_MESSAGE, MAX_TURNS_MESSAGE⟩
        ∧ (runLoop env n s).2.nGen = s.nGen + n
        ∧ Ev.agentResponse MAX_TURNS_MESSAGE ∈ (runLoop env n s).2.events) := by
  induction n generalizing s with
  | zero =>
      refine ⟨by simp [runLoop, emit], ?_⟩
      intro _ _ _ _ _
      exact ⟨rfl, by simp [runLoop, emit], by simp [runLoop, emit]⟩
  | succ n ih =>
      constructor
      · simp only [runLoop]
        split
        · simp
        · split
          · simp [add_fake_assistant_turn, readFlag, emit, appendTurn]
          · split
            · simp [emit, emitThinking, appendTurn, readFlag]
            · split
              · simp [add_fake_assistant_turn, add_tool_call_result, readFlag, emit,
                  appendTurn, emitThinking]
              · split
                · simp [add_fake_assistant_turn, add_tool_call_result, readFlag, emit,
                    appendTurn, emitThinking]
                · refine le_trans (ih _).1 ?_
                  simp [add_tool_call_result, readFlag, emit, appendTurn, emitThinking]
                  all_goals omega
            · simp [emitThinking, appendTurn, readFlag]
      · intro hcan hflag hdup hpend hstop
        obtain ⟨p, hp⟩ := hpend s.nGen
        have hne : env.generate s.nGen ≠ [] := by
          intro hnil
          rw [hnil] at hp
          simp [toolCallsOfBlocks] at hp
        simp only [runLoop, validate_tool_parameters, hdup, readFlag, truncateHistory,
          appendTurn, emitThinking, emit, hflag, cancelledBy_none hcan,
          Bool.false_or, if_neg Bool.false_ne_true]
        rw [effectiveResponse_of_ne_nil hne, get_pending_append_assistant, hp]
        simp only [cancelledBy_none hcan, Bool.false_or, if_neg Bool.false_ne_true, hstop,
          add_tool_call_result, appendTurn, emit]
        refine ⟨((ih _).2 hcan (by simp) hdup hpend hstop).1, ?_,
          ((ih _).2 hcan (by simp) hdup hpend hstop).2.2⟩
        refine Eq.trans ((ih _).2 hcan (by simp) hdup hpend hstop).2.1 ?_
        simp
        all_goals omega


/-- Witness for C2 at a concrete two-turn budget. -/
theorem max_turns_bounds_model_calls_witness :
    (runLoop envLoopForever 2 s0).2.nGen ≤ s0.nGen + 2
    ∧ ((runLoop envLoopForever 2 s0).1 = Outcome.ok ⟨MAX_TURNS_MESSAGE, MAX_TURNS_MESSAGE⟩
      ∧ (runLoop envLoopForever 2 s0).2.nGen = s0.nGen + 2
      ∧ Ev.agentResponse MAX_TURNS_MESSAGE ∈ (runLoop envLoopForever 2 s0).2.events) :=
  ⟨(max_turns_bounds_model_calls envLoopForever 2 s0).1,
    (max_turns_bounds_model_calls envLoopForever 2 s0).2 rfl rfl (by decide)
      (fun _ => ⟨⟨"1", "t", "x"⟩, rfl⟩) (fun _ _ => rfl)⟩

theorem resultsMatchedAux_append :
    ∀ (t u : List Turn) (seen : List String),
      resultsMatchedAux seen (t ++ u)
        = (resultsMatchedAux seen t && resultsMatchedAux (seen ++ callIds t) u)
  | [], u, seen => by simp [resultsMatchedAux, callIds]
  | Turn.userPrompt tx :: rest, u, seen => by
      simp [resultsMatchedAux, callIds, turnCallIds,
        resultsMatchedAux_append rest u seen]
  | Turn.assistantTurn bs :: rest, u, seen => by
      simp [resultsMatchedAux, callIds, turnCallIds, List.append_assoc,
        resultsMatchedAux_append rest u (seen ++ assistIds bs)]
  | Turn.toolResult tid r :: rest, u, seen => by
      simp [resultsMatchedAux, callIds, turnCallIds, Bool.and_assoc,
        resultsMatchedAux_append rest u seen]

theorem numToolResults_append (t u : List Turn) :
    numToolResults (t ++ u) = numToolResults t + numToolResults u := by
  simp [numToolResults, List.filter_append]

theorem callIds_append (t u : List Turn) :
    callIds (t ++ u) = callIds t ++ callIds u := by
  simp [callIds]

theorem traceInv_append_assistant (t : List Turn) (bs : List Block) (h : traceInv t) :
    traceInv (t ++ [Turn.assistantTurn bs]) := by
  obtain ⟨h1, h2⟩ := h
  constructor
  · rw [numToolResults_append, callIds_append, List.length_append]
    have hz : numToolResults [Turn.assistantTurn bs] = 0 := by
      simp [numToolResults, isToolResultTurn]
    rw [hz]
    omega
  · rw [resultsMatchedAux_append, h2]
    simp [resultsMatchedAux]

theorem traceInv_append_call_and_result (t : List Turn) (bs : List Block)
    (p : ToolCallParameters) (hp : toolCallsOfBlocks bs = [p]) (res : String)
    (h : traceInv t) :
    traceInv (t ++ [Turn.assistantTurn bs, Turn.toolResult p.tool_call_id res]) := by
  have hids : assistIds bs = [p.tool_call_id] := by simp [assistIds, hp]
  obtain ⟨h1, h2⟩ := h
  constructor
  · rw [numToolResults_append, callIds_append, List.length_append]
    have hone : numToolResults [Turn.assistantTurn bs, Turn.toolResult p.tool_call_id res] = 1 := by
      simp [numToolResults, isToolResultTurn]
    have hlen : (callIds [Turn.assistantTurn bs, Turn.toolResult p.tool_call_id res]).length = 1 := by
      simp [callIds, turnCallIds, hids]
    rw [hone, hlen]
    omega
  · rw [resultsMatchedAux_append, h2]
    simp [resultsMatchedAux, hids]

theorem traceInv_of_eq {ts ts2 : List Turn} (h : ts2 = ts) (hinv : traceInv ts) :
    traceInv ts2 :=
  h ▸ hinv

/-- The combined turns appended by one interrupted or stopping iteration
preserve the trace invariant. -/
theorem traceInv_append_iter (t : List Turn) (bs : List Block)
    (p : ToolCallParameters) (hp : toolCallsOfBlocks bs = [p]) (res fake : String)
    (h : traceInv t) :
    traceInv (t ++ [Turn.assistantTurn bs, Turn.toolResult p.tool_call_id res,
      Turn.assistantTurn [Block.textResult fake]]) := by
  have hsplit : t ++ [Turn.assistantTurn bs, Turn.toolResult p.tool_call_id res,
      Turn.assistantTurn [Block.textResult fake]]
      = (t ++ [Turn.assistantTurn bs, Turn.toolResult p.tool_call_id res])
        ++ [Turn.assistantTurn [Block.textResult fake]] := by
    simp
  rw [hsplit]
  exact traceInv_append_assistant _ _ (traceInv_append_call_and_result t bs p hp res h)

/-- Every turn of the loop preserves the trace invariant. -/
theorem runLoop_traceInv (env : Env) :
    ∀ (n : Nat) (s : St), traceInv s.trace → traceInv (runLoop env n s).2.trace := by
  intro n
  induction n with
  | zero =>
      intro s h
      simpa [runLoop, emit] using h
  | succ n ih =>
      intro s h
      simp only [runLoop]
      split
      · simpa using h
      · split
        · simp only [add_fake_assistant_turn, readFlag, emit, appendTurn,
            List.append_assoc, List.singleton_append]
          exact traceInv_append_assistant _ _ h
        · split
          · simp only [emit, emitThinking, appendTurn, readFlag,
              List.append_assoc, List.singleton_append]
            exact traceInv_append_assistant _ _ h
          · next tool_call heq =>
              simp only [appendTurn] at heq
              rw [get_pending_append_assistant] at heq
              split
              · simp only [add_fake_assistant_turn, add_tool_call_result, readFlag, emit,
                  appendTurn, emitThinking, List.append_assoc, List.singleton_append]
                exact traceInv_append_iter _ _ _ heq _ _ h
              · split
                · simp only [add_fake_assistant_turn, add_tool_call_result, readFlag, emit,
                    appendTurn, emitThinking, List.append_assoc, List.singleton_append]
                  exact traceInv_append_iter _ _ _ heq _ _ h
                · refine ih _ ?_
                  simp only [add_tool_call_result, readFlag, emit, appendTurn, emitThinking,
                    List.append_assoc, List.singleton_append]
                  exact traceInv_append_call_and_result _ _ _ heq _ h
          · simp only [emitThinking, appendTurn, readFlag,
              List.append_assoc, List.singleton_append]
            exact traceInv_append_assistant _ _ h

/-- C8: over any run, the number of tool-result turns appended never
exceeds the number of tool-invocation blocks appended (at most one tool
call is acted upon per assistant turn), and every tool-result turn's call
identifier matches a tool invocation of a prior assistant turn. -/
theorem tool_results_bounded_and_matched (env : Env) (st : AgentState)
    (instruction : String) (max_turns : Nat) :
    numToolResults (run_impl env st instruction max_turns).2.trace
      ≤ (callIds (run_impl env st instruction max_turns).2.trace).length
    ∧ resultsMatchedAux [] (run_impl env st instruction max_turns).2.trace = true := by
  have h0 : traceInv (runStartState st instruction).trace := by
    constructor
    · simp [runStartState, numToolResults, isToolResultTurn, callIds, turnCallIds]
    · simp [runStartState, resultsMatchedAux]
  exact runLoop_traceInv env max_turns (runStartState st instruction) h0

/-- C9: starting a run with `resume = true` hands the existing ledger to
the loop unchanged (the loop-entry ledger is the old ledger plus the new
user prompt) while `interrupted` enters the loop as `false`; with
`resume = false` both the ledger and the flag are cleared first. -/
theorem resume_keeps_ledger_and_resets_flag (env : Env) (st : AgentState)
    (instruction : String) (max_turns : Nat) :
    run_agent_async env st instruction true max_turns
      = runLoop env max_turns (runStartState st instruction)
    ∧ (runStartState st instruction).interrupted = false
    ∧ (runStartState st instruction).history = st.history ++ [Turn.userPrompt instruction]
    ∧ run_agent_async env st instruction false max_turns
      = runLoop env max_turns (runStartState ⟨[], false⟩ instruction)
    ∧ (runStartState ⟨[], false⟩ instruction).history = [Turn.userPrompt instruction] :=
  ⟨rfl, rfl, rfl, rfl, rfl⟩

/-- With no cancellation request arriving during the run and the flag
clear at loop entry, the run never terminates in an interrupted state. -/
theorem runLoop_no_cancel_not_interrupted (env : Env) (hcan : env.cancelAt = none) :
    ∀ (n : Nat) (s : St), s.interrupted = false →
      (runLoop env n s).1 ≠ Outcome.ok ⟨AGENT_INTERRUPT_MESSAGE, AGENT_INTERRUPT_MESSAGE⟩
      ∧ (runLoop env n s).1 ≠ Outcome.ok ⟨TOOL_RESULT_INTERRUPT_MESSAGE, TOOL_RESULT_INTERRUPT_MESSAGE⟩ := by
  intro n
  induction n with
  | zero =>
      intro s hs
      constructor <;>
        simp [runLoop, MAX_TURNS_MESSAGE, AGENT_INTERRUPT_MESSAGE, TOOL_RESULT_INTERRUPT_MESSAGE]
  | succ n ih =>
      intro s hs
      simp only [runLoop]
      split
      · simp
      · split
        · next hflag =>
            exact absurd hflag (by simp [readFlag, hs, cancelledBy_none hcan])
        · split
          · constructor <;>
              simp [AGENT_INTERRUPT_MESSAGE, TOOL_RESULT_INTERRUPT_MESSAGE]
          · split
            · next hflag2 =>
                exact absurd hflag2
                  (by simp [readFlag, emit, emitThinking, appendTurn, hs,
                    cancelledBy_none hcan])
            · split
              · constructor <;>
                  simp [AGENT_INTERRUPT_MESSAGE, TOOL_RESULT_INTERRUPT_MESSAGE]
              · refine ih _ ?_
                simp [add_tool_call_result, readFlag, emit, appendTurn, emitThinking, hs,
                  cancelledBy_none hcan]
          · simp
          
/-- C10: `run_impl` clears the interruption flag right after appending the
user prompt, so a `cancel()` issued before the run body starts is
discarded — the run behaves exactly as if no such cancel had happened —
and without a cancellation arriving after the run has begun the run never
terminates in an interrupted state. -/
theorem precancel_is_discarded (env : Env) (st : AgentState) (instruction : String)
    (max_turns : Nat) :
    run_impl env (cancel st) instruction max_turns = run_impl env st instruction max_turns
    ∧ (env.cancelAt = none →
        (run_impl env st instruction max_turns).1
          ≠ Outcome.ok ⟨AGENT_INTERRUPT_MESSAGE, AGENT_INTERRUPT_MESSAGE⟩
        ∧ (run_impl env st instruction max_turns).1
          ≠ Outcome.ok ⟨TOOL_RESULT_INTERRUPT_MESSAGE, TOOL_RESULT_INTERRUPT_MESSAGE⟩) :=
  ⟨rfl, fun hcan => runLoop_no_cancel_not_interrupted env hcan max_turns _ rfl⟩

/-- Witness for C10 at a concrete run without cancellation. -/
theorem precancel_is_discarded_witness :
    run_impl envLoopForever (cancel ⟨[], false⟩) "go" 2 = run_impl envLoopForever ⟨[], false⟩ "go" 2
    ∧ ((run_impl envLoopForever ⟨[], false⟩ "go" 2).1
        ≠ Outcome.ok ⟨AGENT_INTERRUPT_MESSAGE, AGENT_INTERRUPT_MESSAGE⟩
      ∧ (run_impl envLoopForever ⟨[], false⟩ "go" 2).1
        ≠ Outcome.ok ⟨TOOL_RESULT_INTERRUPT_MESSAGE, TOOL_RESULT_INTERRUPT_MESSAGE⟩) :=
  ⟨(precancel_is_discarded envLoopForever ⟨[], false⟩ "go" 2).1,
    (precancel_is_discarded envLoopForever ⟨[], false⟩ "go" 2).2 rfl⟩

/-- C4 counterexample: the duplicate-name check does not fire at setup —
it fires inside the run loop, at runtime, after the run has started and
the user prompt has already been appended to the ledger. -/
theorem duplicate_check_fires_at_runtime :
    (run_impl envDup ⟨[], false⟩ "task" 3).1 = Outcome.err "Tool a is duplicated"
    ∧ (run_impl envDup ⟨[], false⟩ "task" 3).2.history = [Turn.userPrompt "task"] := by
  constructor <;> rfl

/-- C4 (amended): duplicate tool names are detected by collecting the
tool parameter schemas, sorting the names, and raising when two adjacent
names are equal — a complete duplicate check — but the check runs at the
start of every turn inside the run loop (at runtime, after the run has
begun), not at setup time. -/
theorem duplicate_names_detected_each_turn (env : Env) (n : Nat) (s : St) :
    (env.toolNames.Nodup → duplicate_error env.toolNames = none)
    ∧ (¬env.toolNames.Nodup →
        ∃ nm, (runLoop env (n + 1) s).1 = Outcome.err ("Tool " ++ nm ++ " is duplicated")) := by
  constructor
  · exact fun h => (duplicate_error_eq_none_iff env.toolNames).mpr h
  · intro h
    have hd : duplicate_error env.toolNames ≠ none := fun hnone =>
      h ((duplicate_error_eq_none_iff env.toolNames).mp hnone)
    obtain ⟨nm, hnm⟩ := Option.ne_none_iff_exists'.mp hd
    refine ⟨nm, ?_⟩
    simp [runLoop, validate_tool_parameters, hnm]

/-- Witness for the amended C4 at concrete unique and duplicated name
lists. -/
theorem duplicate_names_detected_each_turn_witness :
    duplicate_error envLoopForever.toolNames = none
    ∧ (∃ nm, (runLoop envDup 1 s0).1 = Outcome.err ("Tool " ++ nm ++ " is duplicated")) :=
  ⟨(duplicate_names_detected_each_turn envLoopForever 0 s0).1 (by decide),
    (duplicate_names_detected_each_turn envDup 0 s0).2 (by decide)⟩

theorem process_one_persisted (b : Bool) (s : SinkState) (m : Ev) :
    (process_one true b s m).persisted = s.persisted ++ [m] := by
  unfold process_one
  split_ifs <;> simp_all <;> split <;> rfl

theorem process_one_dead (hs b : Bool) (s : SinkState) (m : Ev)
    (h : s.wsConnected = false) :
    (process_one hs b s m).wsConnected = false
    ∧ (process_one hs b s m).forwarded = s.forwarded := by
  unfold process_one
  split_ifs <;> simp_all

theorem process_messages_persists (sendOk : Nat → Bool) :
    ∀ (l : List Ev) (i : Nat) (s : SinkState),
      (process_messages true sendOk l i s).persisted = s.persisted ++ l
  | [], i, s => by simp [process_messages]
  | m :: rest, i, s => by
      rw [process_messages, process_messages_persists sendOk rest (i + 1) _,
        process_one_persisted]
      simp

theorem process_messages_dead (hs : Bool) (sendOk : Nat → Bool) :
    ∀ (l : List Ev) (i : Nat) (s : SinkState), s.wsConnected = false →
      (process_messages hs sendOk l i s).wsConnected = false
      ∧ (process_messages hs sendOk l i s).forwarded = s.forwarded
  | [], i, s, h => ⟨h, rfl⟩
  | m :: rest, i, s, h => by
      rw [process_messages]
      obtain ⟨h1, h2⟩ := process_one_dead hs (sendOk i) s m h
      obtain ⟨h3, h4⟩ := process_messages_dead hs sendOk rest (i + 1) _ h1
      exact ⟨h3, h4.trans h2⟩

theorem process_messages_append (hs : Bool) (sendOk : Nat → Bool) :
    ∀ (u v : List Ev) (i : Nat) (s : SinkState),
      process_messages hs sendOk (u ++ v) i s
        = process_messages hs sendOk v (i + u.length) (process_messages hs sendOk u i s)
  | [], v, i, s => by simp [process_messages]
  | m :: rest, v, i, s => by
      rw [List.cons_append, process_messages,
        process_messages_append hs sendOk rest v (i + 1) _]
      rw [show process_messages hs sendOk (m :: rest) i s
          = process_messages hs sendOk rest (i + 1) (process_one hs (sendOk i) s m) from rfl]
      have harith : i + 1 + rest.length = i + (m :: rest).length := by
        simp
        omega
      rw [harith]

/-- C5: when forwarding an event to the websocket fails, the exception is
caught for that event (the consumer is a total function of the queue), the
websocket reference is cleared for the remainder of the run, and every
subsequent event is still persisted but no longer forwarded. -/
theorem transport_failure_degrades_to_persist_only
    (sendOk : Nat → Bool) (pre post : List Ev) (m : Ev) (i : Nat) (s : SinkState)
    (hws : (process_messages true sendOk pre i s).wsConnected = true)
    (hm : isUserMessage m = false)
    (hfail : sendOk (i + pre.length) = false) :
    (process_messages true sendOk (pre ++ m :: post) i s).persisted
      = s.persisted ++ (pre ++ m :: post)
    ∧ (process_messages true sendOk (pre ++ m :: post) i s).wsConnected = false
    ∧ (process_messages true sendOk (pre ++ m :: post) i s).forwarded
      = (process_messages true sendOk pre i s).forwarded := by
  have hone : process_one true (sendOk (i + pre.length))
      (process_messages true sendOk pre i s) m
      = { wsConnected := false,
          persisted := (process_messages true sendOk pre i s).persisted ++ [m],
          forwarded := (process_messages true sendOk pre i s).forwarded } := by
    simp [process_one, hfail, hm, hws]
  have hrw : process_messages true sendOk (pre ++ m :: post) i s
      = process_messages true sendOk post (i + pre.length + 1)
          (process_one true (sendOk (i + pre.length))
            (process_messages true sendOk pre i s) m) := by
    rw [process_messages_append true sendOk pre (m :: post) i s]
    rw [process_messages]
  have hdead := process_messages_dead true sendOk post (i + pre.length + 1)
    (process_one true (sendOk (i + pre.length)) (process_messages true sendOk pre i s) m)
    (by rw [hone])
  refine ⟨process_messages_persists sendOk _ i s, ?_, ?_⟩
  · rw [hrw]
    exact hdead.1
  · rw [hrw]
    rw [hdead.2, hone]

/-- Witness for C5 at a concrete three-event queue whose send fails on the
second event. -/
theorem transport_failure_degrades_to_persist_only_witness :
    (process_messages true sendOkFirst
        ([Ev.agentThinking "a"] ++ Ev.agentResponse "b" :: [Ev.toolResultEvent "1" "t" "r"])
        0 sink0).persisted
      = sink0.persisted
        ++ ([Ev.agentThinking "a"] ++ Ev.agentResponse "b" :: [Ev.toolResultEvent "1" "t" "r"])
    ∧ (process_messages true sendOkFirst
        ([Ev.agentThinking "a"] ++ Ev.agentResponse "b" :: [Ev.toolResultEvent "1" "t" "r"])
        0 sink0).wsConnected = false
    ∧ (process_messages true sendOkFirst
        ([Ev.agentThinking "a"] ++ Ev.agentResponse "b" :: [Ev.toolResultEvent "1" "t" "r"])
        0 sink0).forwarded
      = (process_messages true sendOkFirst [Ev.agentThinking "a"] 0 sink0).forwarded :=
  transport_failure_degrades_to_persist_only sendOkFirst
    [Ev.agentThinking "a"] [Ev.toolResultEvent "1" "t" "r"] (Ev.agentResponse "b")
    0 sink0 (by decide) rfl rfl

end IIAgent
